import Mathlib

/-!
# The Regex handle of the Io `Regex` addon (`addons/Regex/source/IoRegex.c`)

A shallow embedding of `IoRegex.c`.  An Io object is known by its identity
(its address); the embedding numbers the Regex objects in allocation order and
keeps their `IoRegexData` in a store indexed by that number.  Every C function
of the file that reads or writes a Regex object becomes a function on the
store.  The PCRE-backed compiler (`Regex.c`) and the host map (`IoMap.c`) are
not part of `IoRegex.c`; the compiler is a parameter of the embedding and the
map is a small association list.
-/

namespace Io

/-! ## Data model -/

/-- A `NamedCapture` of `Regex.h`: the entry `Regex_namedCaptures` reports for
one named group; `IoRegex_nameToIndexMap` reads its `name` and `index`. -/
structure NamedCapture where
  name : String
  index : Int
deriving DecidableEq, Repr

/-- Modelled from the spec: the `Regex` object of `Regex.h` / `Regex.c` (not in
`IoRegex.c`), the compiled matcher a handle caches.  `IoRegex.c` reads its
`captureCount` field and what `Regex_namedCaptures` reports for it (`none` is
the NULL result, a list holds the entries before the terminating entry whose
name is NULL).  `error` is the spec's `CompileError`: it is set when
the pattern failed to compile; `IoRegex.c` never reads it. -/
structure Regex where
  captureCount : Int
  namedCaptures : Option (List NamedCapture)
  error : Option String
deriving DecidableEq, Repr

/-- Modelled from the spec: `Regex_namedCaptures` of `Regex.c`, the named groups
of a compiled matcher as (name, index) entries in the order the matcher
reports them, or NULL. -/
def Regex_namedCaptures (regex : Regex) : Option (List NamedCapture) :=
  regex.namedCaptures

/-- The type of `Regex_newFromPattern_withOptions_` (`Regex.c`): from the
pattern text and the option bits to a `Regex` object.  The source dereferences
the result without a test (`IoRegex_rawRegex(self)->captureCount`), so the
result is an object, never NULL. -/
abbrev Compiler := String → Int → Regex

/-- Modelled from the spec: the host runtime's `IoMap` (`IoMap.c`, not in
`IoRegex.c`), the spec's `mapping<string,int>`: at most one entry per key. -/
abbrev IoMap := List (String × Int)

/-- The map `IoMap_new` returns: no entries. -/
def IoMap_new : IoMap := []

/-- Modelled from the spec: `IoMap_rawAtPut`, which replaces the value of a
key the map already holds and adds the entry otherwise. -/
def IoMap_rawAtPut : IoMap → String → Int → IoMap
  | [], k, v => [(k, v)]
  | (k', v') :: rest, k, v =>
    if k' = k then (k, v) :: rest else (k', v') :: IoMap_rawAtPut rest k v

/-- Modelled from the spec: `IoMap_rawAt`, the value a map holds for a key. -/
def IoMap_rawAt : IoMap → String → Option Int
  | [], _ => none
  | (k', v') :: rest, k => if k' = k then some v' else IoMap_rawAt rest k

/-- The keys of a map, in insertion order. -/
def IoMap_keys (m : IoMap) : List String := m.map Prod.fst

/-- The `IoRegexData` of `IoRegex.h` as `IoRegex.c` uses it: the pattern
symbol, the PCRE option bits (a C `int`), the lazily built matcher and the
lazily built name-to-index map (`none` is the NULL pointer). -/
structure IoRegexData where
  pattern : String
  options : Int
  regex : Option Regex
  nameToIndexMap : Option IoMap
deriving DecidableEq, Repr

/-- The part of the Io state `IoRegex.c` works on.  `objects h` is the data of
the Regex object numbered `h`; the objects numbered below `allocated` exist;
`proto` is the prototype registered by `IoRegex_proto`.  `compileLog` is a
ghost field: one entry (handle, pattern, options) per call of
`Regex_newFromPattern_withOptions_`, in call order. -/
structure IoState where
  objects : Nat → IoRegexData
  allocated : Nat
  proto : Nat
  compileLog : List (Nat × String × Int)

/-- The data `calloc(1, sizeof(IoRegexData))` returns with the pattern set. -/
def IoRegexData.fresh (pattern : String) : IoRegexData :=
  { pattern := pattern, options := 0, regex := none, nameToIndexMap := none }

/-- Writes the data of one object. -/
def IoState.setData (s : IoState) (self : Nat) (d : IoRegexData) : IoState :=
  { s with objects := fun h => if h = self then d else s.objects h }

/-- The number of times the compiler was called for a handle. -/
def IoState.compileCount (s : IoState) (self : Nat) : Nat :=
  (s.compileLog.filter (fun e => decide (e.1 = self))).length

/-- A handle is live when its object has been allocated. -/
def IoState.live (s : IoState) (self : Nat) : Prop := self < s.allocated

instance (s : IoState) (self : Nat) : Decidable (s.live self) :=
  inferInstanceAs (Decidable (self < s.allocated))

/-! ## PCRE option bits (`pcre.h`)

The option word is a C `int`.  On two's complement integers `|`, `&` and `~`
are `Int.lor`, `Int.land` and `Int.lnot`, and they cannot overflow, so the
option word is an `Int` and every statement about it covers every `int`. -/

/-- The option bit `PCRE_CASELESS`, 0x00000001 in `pcre.h`. -/
def PCRE_CASELESS : Int := 1
/-- The option bit `PCRE_MULTILINE`, 0x00000002 in `pcre.h`. -/
def PCRE_MULTILINE : Int := 2
/-- The option bit `PCRE_DOTALL`, 0x00000004 in `pcre.h`. -/
def PCRE_DOTALL : Int := 4
/-- The option bit `PCRE_EXTENDED`, 0x00000008 in `pcre.h`. -/
def PCRE_EXTENDED : Int := 8

/-- The macro `IOBOOL(self, cond)`: the Io true object when the C value is not zero. -/
def IOBOOL (cond : Int) : Bool := decide (cond ≠ 0)

/-! ## Construction -/

/-- The function `IoRegex_proto`: the state after the prototype is made and registered; the
prototype is object 0, its data zeroed and its pattern the empty symbol. -/
def IoRegex_proto : IoState × Nat :=
  ({ objects := fun _ => IoRegexData.fresh "", allocated := 1, proto := 0,
     compileLog := [] }, 0)

/-- The function `IoRegex_rawClone`: a new object whose data is zeroed apart from the
pattern, which is the pattern of `proto`. -/
def IoRegex_rawClone (s : IoState) (proto : Nat) : IoState × Nat :=
  let self := s.allocated
  ({ (s.setData self (IoRegexData.fresh (s.objects proto).pattern)) with
      allocated := s.allocated + 1 }, self)

/-- The function `IoRegex_new`: `IOCLONE` of the registered prototype. -/
def IoRegex_new (s : IoState) : IoState × Nat :=
  IoRegex_rawClone s s.proto

/-- The function `IoRegex_newWithPattern_`: a new object with the given pattern. -/
def IoRegex_newWithPattern_ (s : IoState) (pattern : String) : IoState × Nat :=
  let r := IoRegex_new s
  (r.1.setData r.2 { r.1.objects r.2 with pattern := pattern }, r.2)

/-- The function `IoRegex_with`: the method `with(pattern)`; the receiver is not used. -/
def IoRegex_with (s : IoState) (_self : Nat) (pattern : String) : IoState × Nat :=
  IoRegex_newWithPattern_ s pattern

/-- The function `IoRegex_pattern`: the pattern symbol of the receiver. -/
def IoRegex_pattern (s : IoState) (self : Nat) : String :=
  (s.objects self).pattern

/-! ## Lazy compilation -/

/-- The function `IoRegex_rawRegex`: the cached matcher when there is one; otherwise the
compiler is called on the pattern and the option bits, and its result is
stored and returned. -/
def IoRegex_rawRegex (compile : Compiler) (s : IoState) (self : Nat) : IoState × Regex :=
  match (s.objects self).regex with
  | some regex => (s, regex)
  | none =>
    let d := s.objects self
    let regex := compile d.pattern d.options
    ({ (s.setData self { d with regex := some regex }) with
        compileLog := s.compileLog ++ [(self, d.pattern, d.options)] }, regex)

/-- The function `IoRegex_captureCount`: `IONUMBER` of the matcher's `captureCount`. -/
def IoRegex_captureCount (compile : Compiler) (s : IoState) (self : Nat) : IoState × Int :=
  let r := IoRegex_rawRegex compile s self
  (r.1, r.2.captureCount)

/-- The loop of `IoRegex_nameToIndexMap`: one `IoMap_rawAtPut` per entry, in
the order of the entries. -/
def putNamedCaptures (map : IoMap) (namedCaptures : List NamedCapture) : IoMap :=
  namedCaptures.foldl (fun m capture => IoMap_rawAtPut m capture.name capture.index) map

/-- The function `IoRegex_nameToIndexMap`: the cached map when there is one; otherwise a new
map is stored in the receiver, the matcher is obtained through
`IoRegex_rawRegex`, and the map is filled from the matcher's named captures. -/
def IoRegex_nameToIndexMap (compile : Compiler) (s : IoState) (self : Nat) : IoState × IoMap :=
  match (s.objects self).nameToIndexMap with
  | some map => (s, map)
  | none =>
    let s1 := s.setData self { s.objects self with nameToIndexMap := some IoMap_new }
    let r := IoRegex_rawRegex compile s1 self
    match Regex_namedCaptures r.2 with
    | none => (r.1, IoMap_new)
    | some namedCaptures =>
      let map := putNamedCaptures IoMap_new namedCaptures
      (r.1.setData self { r.1.objects self with nameToIndexMap := some map }, map)

/-! ## Options -/

/-- The function `IoRegex_cloneWithOptions_`: the receiver itself when the option bits are
its own; otherwise a clone of the receiver with the option bits stored. -/
def IoRegex_cloneWithOptions_ (s : IoState) (self : Nat) (options : Int) : IoState × Nat :=
  if options = (s.objects self).options then (s, self)
  else
    let r := IoRegex_rawClone s self
    (r.1.setData r.2 { r.1.objects r.2 with options := options }, r.2)

/-- The method `caseless`: the receiver or a clone with `PCRE_CASELESS` set. -/
def IoRegex_caseless (s : IoState) (self : Nat) : IoState × Nat :=
  IoRegex_cloneWithOptions_ s self (Int.lor (s.objects self).options PCRE_CASELESS)

/-- The method `notCaseless`: the receiver or a clone with `PCRE_CASELESS` cleared. -/
def IoRegex_notCaseless (s : IoState) (self : Nat) : IoState × Nat :=
  IoRegex_cloneWithOptions_ s self (Int.land (s.objects self).options (Int.lnot PCRE_CASELESS))

/-- The method `isCaseless`: whether `PCRE_CASELESS` is set on the receiver. -/
def IoRegex_isCaseless (s : IoState) (self : Nat) : Bool :=
  IOBOOL (Int.land (s.objects self).options PCRE_CASELESS)

/-- The method `dotAll`: the receiver or a clone with `PCRE_DOTALL` set. -/
def IoRegex_dotAll (s : IoState) (self : Nat) : IoState × Nat :=
  IoRegex_cloneWithOptions_ s self (Int.lor (s.objects self).options PCRE_DOTALL)

/-- The method `notDotAll`: the receiver or a clone with `PCRE_DOTALL` cleared. -/
def IoRegex_notDotAll (s : IoState) (self : Nat) : IoState × Nat :=
  IoRegex_cloneWithOptions_ s self (Int.land (s.objects self).options (Int.lnot PCRE_DOTALL))

/-- The method `isDotAll`: whether `PCRE_DOTALL` is set on the receiver. -/
def IoRegex_isDotAll (s : IoState) (self : Nat) : Bool :=
  IOBOOL (Int.land (s.objects self).options PCRE_DOTALL)

/-- The method `extended`: the receiver or a clone with `PCRE_EXTENDED` set. -/
def IoRegex_extended (s : IoState) (self : Nat) : IoState × Nat :=
  IoRegex_cloneWithOptions_ s self (Int.lor (s.objects self).options PCRE_EXTENDED)

/-- The method `notExtended`: the receiver or a clone with `PCRE_EXTENDED` cleared. -/
def IoRegex_notExtended (s : IoState) (self : Nat) : IoState × Nat :=
  IoRegex_cloneWithOptions_ s self (Int.land (s.objects self).options (Int.lnot PCRE_EXTENDED))

/-- The method `isExtended`: whether `PCRE_EXTENDED` is set on the receiver. -/
def IoRegex_isExtended (s : IoState) (self : Nat) : Bool :=
  IOBOOL (Int.land (s.objects self).options PCRE_EXTENDED)

/-- The method `multiline`: the receiver or a clone with `PCRE_MULTILINE` set. -/
def IoRegex_multiline (s : IoState) (self : Nat) : IoState × Nat :=
  IoRegex_cloneWithOptions_ s self (Int.lor (s.objects self).options PCRE_MULTILINE)

/-- The method `notMultiline`: the receiver or a clone with `PCRE_MULTILINE` cleared. -/
def IoRegex_notMultiline (s : IoState) (self : Nat) : IoState × Nat :=
  IoRegex_cloneWithOptions_ s self (Int.land (s.objects self).options (Int.lnot PCRE_MULTILINE))

/-- The method `isMultiline`: whether `PCRE_MULTILINE` is set on the receiver. -/
def IoRegex_isMultiline (s : IoState) (self : Nat) : Bool :=
  IOBOOL (Int.land (s.objects self).options PCRE_MULTILINE)

/-! ## The method table, by flag -/

/-- The four option flags of the method table. -/
inductive Flag where
  | caseless
  | dotAll
  | extended
  | multiline
deriving DecidableEq, Repr

/-- The PCRE bit of a flag. -/
def Flag.mask : Flag → Int
  | .caseless => PCRE_CASELESS
  | .dotAll => PCRE_DOTALL
  | .extended => PCRE_EXTENDED
  | .multiline => PCRE_MULTILINE

/-- The set method of a flag: `caseless`, `dotAll`, `extended`, `multiline`. -/
def Flag.set : Flag → IoState → Nat → IoState × Nat
  | .caseless => IoRegex_caseless
  | .dotAll => IoRegex_dotAll
  | .extended => IoRegex_extended
  | .multiline => IoRegex_multiline

/-- The clear method of a flag: `notCaseless`, `notDotAll`, `notExtended`,
`notMultiline`. -/
def Flag.clear : Flag → IoState → Nat → IoState × Nat
  | .caseless => IoRegex_notCaseless
  | .dotAll => IoRegex_notDotAll
  | .extended => IoRegex_notExtended
  | .multiline => IoRegex_notMultiline

/-- The query method of a flag: `isCaseless`, `isDotAll`, `isExtended`,
`isMultiline`. -/
def Flag.query : Flag → IoState → Nat → Bool
  | .caseless => IoRegex_isCaseless
  | .dotAll => IoRegex_isDotAll
  | .extended => IoRegex_isExtended
  | .multiline => IoRegex_isMultiline

/-- The bit position of a flag's mask. -/
def Flag.bit : Flag → Nat
  | .caseless => 0
  | .dotAll => 2
  | .extended => 3
  | .multiline => 1

/-- A single-bit mask: bit `k` and no other. -/
def IsBit (m : Int) (k : Nat) : Prop := ∀ j, Int.testBit m j = decide (j = k)

/-- The four flags. -/
def Flag.all : List Flag := [.caseless, .dotAll, .extended, .multiline]

/-- The set methods of a list of flags, sent one after the other, each to the
handle the one before returned. -/
def setAll : List Flag → IoState → Nat → IoState × Nat
  | [], s, h => (s, h)
  | f :: fs, s, h => setAll fs (f.set s h).1 (f.set s h).2

/-- What a derivation that clones leaves behind: `r` is the state and handle
returned for the receiver `h` of state `s`.  The handle is a new object, other
than `h`; it has the pattern of `h` and the option bits `options`; it has no
matcher and no map; the objects of `s` and the compile log are as they were. -/
def DerivedFresh (s : IoState) (h : Nat) (r : IoState × Nat) (options : Int) : Prop :=
  r.2 ≠ h ∧ ¬ s.live r.2 ∧ r.1.live r.2 ∧
  (r.1.objects r.2).pattern = (s.objects h).pattern ∧
  (r.1.objects r.2).options = options ∧
  (r.1.objects r.2).regex = none ∧
  (r.1.objects r.2).nameToIndexMap = none ∧
  (∀ h', s.live h' → r.1.objects h' = s.objects h') ∧
  r.1.compileLog = s.compileLog

/-- An example compiler: the pattern `(` fails to compile, the pattern of the
spec's named-capture example reports its two named groups, every other pattern
compiles to a matcher without groups. -/
def exampleCompiler : Compiler := fun pattern _ =>
  if pattern = "(" then
    { captureCount := 0, namedCaptures := none, error := some "missing )" }
  else if pattern = "(?<first>wom)(?<second>bat)" then
    { captureCount := 2, namedCaptures := some [⟨"first", 1⟩, ⟨"second", 2⟩], error := none }
  else
    { captureCount := 0, namedCaptures := none, error := none }

/-- The state after `Regex with("a+")`: the new handle is object 1. -/
def stateWith : IoState × Nat := IoRegex_with IoRegex_proto.1 0 "a+"

/-- The state after `Regex with("a+") caseless`: the clone is object 2. -/
def stateCaseless : IoState × Nat := IoRegex_caseless stateWith.1 stateWith.2

/-- The state after `Regex with("a+") nameToIndexMap`: object 1 has its matcher
and its map cached. -/
def stateCached : IoState × IoMap := IoRegex_nameToIndexMap exampleCompiler stateWith.1 stateWith.2

/-! ## Sequences of operations -/

/-- What a method hands back to its caller. -/
inductive IoObject where
  | regex (handle : Nat)
  | symbol (text : String)
  | number (value : Int)
  | map (entries : IoMap)
  | bool (value : Bool)
  | matcher (regex : Regex)
deriving DecidableEq, Repr

/-- The operations on Regex objects: the methods of the method table that read
or write a Regex object, and the C entry point `IoRegex_rawRegex`. -/
inductive Op where
  | withPattern (self : Nat) (pattern : String)
  | pattern (self : Nat)
  | captureCount (self : Nat)
  | nameToIndexMap (self : Nat)
  | rawRegex (self : Nat)
  | set (f : Flag) (self : Nat)
  | clear (f : Flag) (self : Nat)
  | query (f : Flag) (self : Nat)
deriving DecidableEq, Repr

/-- The receiver of an operation. -/
def Op.self : Op → Nat
  | .withPattern self _ => self
  | .pattern self => self
  | .captureCount self => self
  | .nameToIndexMap self => self
  | .rawRegex self => self
  | .set _ self => self
  | .clear _ self => self
  | .query _ self => self

/-- One operation: the state after it and what it returns. -/
def perform (compile : Compiler) (s : IoState) : Op → IoState × IoObject
  | .withPattern self pattern =>
    ((IoRegex_with s self pattern).1, .regex (IoRegex_with s self pattern).2)
  | .pattern self => (s, .symbol (IoRegex_pattern s self))
  | .captureCount self =>
    ((IoRegex_captureCount compile s self).1, .number (IoRegex_captureCount compile s self).2)
  | .nameToIndexMap self =>
    ((IoRegex_nameToIndexMap compile s self).1, .map (IoRegex_nameToIndexMap compile s self).2)
  | .rawRegex self =>
    ((IoRegex_rawRegex compile s self).1, .matcher (IoRegex_rawRegex compile s self).2)
  | .set f self => ((f.set s self).1, .regex (f.set s self).2)
  | .clear f self => ((f.clear s self).1, .regex (f.clear s self).2)
  | .query f self => (s, .bool (f.query s self))

/-- The states the operations reach from the state `IoRegex_proto` leaves, each
operation sent to a live handle. -/
inductive Reachable (compile : Compiler) : IoState → Prop where
  | proto : Reachable compile IoRegex_proto.1
  | step {s : IoState} (op : Op) :
      Reachable compile s → s.live op.self → Reachable compile (perform compile s op).1

/-- The map `IoRegex_nameToIndexMap` builds from a matcher: empty when
`Regex_namedCaptures` reports NULL, filled by the loop otherwise. -/
def mapOfRegex (regex : Regex) : IoMap :=
  match Regex_namedCaptures regex with
  | none => IoMap_new
  | some namedCaptures => putNamedCaptures IoMap_new namedCaptures

/-- The caches of a state agree with the handles: a cached matcher is what the
compiler returns for the handle's pattern and option bits, and a cached map is
the map built from the handle's cached matcher. -/
def CacheConsistent (compile : Compiler) (s : IoState) : Prop :=
  ∀ h,
    (∀ regex, (s.objects h).regex = some regex →
      regex = compile (s.objects h).pattern (s.objects h).options) ∧
    (∀ map, (s.objects h).nameToIndexMap = some map →
      ∃ regex, (s.objects h).regex = some regex ∧ map = mapOfRegex regex)

/-- The compile log agrees with the caches: the compiler was called once for a
handle that has a matcher and never for one that has none, and the objects not
yet allocated have no matcher. -/
def LogConsistent (s : IoState) : Prop :=
  ∀ h,
    s.compileCount h = (if (s.objects h).regex.isSome then 1 else 0) ∧
    (¬ s.live h → (s.objects h).regex = none)

/-- The state after `Regex with("(?<first>wom)(?<second>bat)")`, then
`captureCount`, `nameToIndexMap` and `IoRegex_rawRegex` on the new handle. -/
def stateForced : IoState :=
  (perform exampleCompiler
    (perform exampleCompiler
      (perform exampleCompiler
        (perform exampleCompiler IoRegex_proto.1
          (.withPattern 0 "(?<first>wom)(?<second>bat)")).1
        (.captureCount 1)).1
      (.nameToIndexMap 1)).1
    (.rawRegex 1)).1

/-- The effect of an operation that allocates: `s'` has one object more than
`s`, the new object has no matcher and no map, and the objects of `s` and the
compile log are as they were. -/
def Allocates (s s' : IoState) : Prop :=
  s'.allocated = s.allocated + 1 ∧
  s'.compileLog = s.compileLog ∧
  (∀ h, h ≠ s.allocated → s'.objects h = s.objects h) ∧
  (s'.objects s.allocated).regex = none ∧
  (s'.objects s.allocated).nameToIndexMap = none

/-- The effect of an operation that forces compilation on the handle `a`: the
matcher of `a` is the one `IoRegex_rawRegex` returns in `s`, the compile log is
the one it leaves, the map of `a` is as it was or is new and built from that
matcher, and nothing else differs between `s` and `s'`. -/
def Forces (compile : Compiler) (s s' : IoState) (a : Nat) : Prop :=
  s'.allocated = s.allocated ∧
  s'.compileLog = (IoRegex_rawRegex compile s a).1.compileLog ∧
  (∀ h, h ≠ a → s'.objects h = s.objects h) ∧
  (s'.objects a).pattern = (s.objects a).pattern ∧
  (s'.objects a).options = (s.objects a).options ∧
  (s'.objects a).regex = some (IoRegex_rawRegex compile s a).2 ∧
  ((s'.objects a).nameToIndexMap = (s.objects a).nameToIndexMap ∨
    ((s.objects a).nameToIndexMap = none ∧
      (s'.objects a).nameToIndexMap = some (mapOfRegex (IoRegex_rawRegex compile s a).2)))

/-- The entries a matcher reports: none when `Regex_namedCaptures` is NULL. -/
def reportedCaptures (regex : Regex) : List NamedCapture :=
  (Regex_namedCaptures regex).getD []

/-- Modelled from the spec: the order of the entries a compiled matcher
reports (`Regex.c`, which builds the list, is not in `IoRegex.c`).  The spec
numbers the capture groups left to right and records each named group as
(name, assigned index) in encounter order, so of two entries that carry the
same name the later one never has the lower index. -/
def IndexOrdered (namedCaptures : List NamedCapture) : Prop :=
  namedCaptures.Pairwise (fun x y => x.name = y.name → x.index ≤ y.index)

instance (namedCaptures : List NamedCapture) : Decidable (IndexOrdered namedCaptures) :=
  inferInstanceAs (Decidable (List.Pairwise _ _))

/-- An example compiler for a pattern that uses the name `a` for its first and
its third group and the name `b` for its second: the matcher reports the three
named groups in encounter order; every other pattern compiles to a matcher
without groups. -/
def orderedCompiler : Compiler := fun pattern _ =>
  if pattern = "(?<a>x)(?<b>y)(?<a>z)" then
    { captureCount := 3, namedCaptures := some [⟨"a", 1⟩, ⟨"b", 2⟩, ⟨"a", 3⟩], error := none }
  else
    { captureCount := 0, namedCaptures := none, error := none }

/-- The state after `Regex with("(?<a>x)(?<b>y)(?<a>z)")`: the new handle is
object 1. -/
def stateRepeated : IoState × Nat := IoRegex_with IoRegex_proto.1 0 "(?<a>x)(?<b>y)(?<a>z)"

/-- The state after `Regex with("(")`: the new handle is object 1. -/
def stateBad : IoState × Nat := IoRegex_with IoRegex_proto.1 0 "("

/-- The state after `Regex with("(?<first>wom)(?<second>bat)")`: the new
handle is object 1. -/
def stateNamed : IoState × Nat := IoRegex_with IoRegex_proto.1 0 "(?<first>wom)(?<second>bat)"

/-! # Theorems -/

/-! ## Bit arithmetic on the option word -/

theorem int_eq_of_testBit_eq : ∀ (a b : Int), (∀ k, Int.testBit a k = Int.testBit b k) → a = b
  | Int.ofNat m, Int.ofNat n, h => by
    have : m = n := Nat.eq_of_testBit_eq (fun k => by simpa [Int.testBit] using h k)
    rw [this]
  | Int.negSucc m, Int.negSucc n, h => by
    have : m = n := Nat.eq_of_testBit_eq (fun k => by
      have := h k
      simp only [Int.testBit] at this
      cases hm : m.testBit k <;> cases hn : n.testBit k <;> simp_all)
    rw [this]
  | Int.ofNat m, Int.negSucc n, h => by
    exfalso
    have h1 := h (m + n)
    simp only [Int.testBit] at h1
    have hm : m.testBit (m + n) = false :=
      Nat.testBit_lt_two_pow (lt_of_lt_of_le (Nat.lt_two_pow m) (Nat.pow_le_pow_right (by decide) (by omega)))
    have hn : n.testBit (m + n) = false :=
      Nat.testBit_lt_two_pow (lt_of_lt_of_le (Nat.lt_two_pow n) (Nat.pow_le_pow_right (by decide) (by omega)))
    simp [hm, hn] at h1
  | Int.negSucc m, Int.ofNat n, h => by
    exfalso
    have h1 := h (m + n)
    simp only [Int.testBit] at h1
    have hm : m.testBit (m + n) = false :=
      Nat.testBit_lt_two_pow (lt_of_lt_of_le (Nat.lt_two_pow m) (Nat.pow_le_pow_right (by decide) (by omega)))
    have hn : n.testBit (m + n) = false :=
      Nat.testBit_lt_two_pow (lt_of_lt_of_le (Nat.lt_two_pow n) (Nat.pow_le_pow_right (by decide) (by omega)))
    simp [hm, hn] at h1

theorem testBit_zero_int (k : Nat) : Int.testBit 0 k = false := by
  show Nat.testBit 0 k = false
  simp

theorem isBit_natPow (k : Nat) : IsBit (Int.ofNat (2 ^ k)) k := by
  intro j
  show Nat.testBit (2 ^ k) j = decide (j = k)
  rw [Nat.testBit_two_pow]
  by_cases h : j = k
  · subst h; simp
  · have h2 : ¬ k = j := fun e => h e.symm
    simp [h, h2]

theorem IsBit.ne_zero {m : Int} {k : Nat} (h : IsBit m k) : m ≠ 0 := by
  intro h0
  have := h k
  rw [h0, testBit_zero_int] at this
  simp at this

theorem IsBit.land_eq {m : Int} {k : Nat} (h : IsBit m k) (o : Int) :
    Int.land o m = if Int.testBit o k then m else 0 := by
  apply int_eq_of_testBit_eq
  intro j
  rw [Int.testBit_land, h j]
  by_cases hj : j = k
  · subst hj
    cases ho : Int.testBit o j <;> simp [h j, testBit_zero_int]
  · cases ho : Int.testBit o k <;> simp [hj, h j, testBit_zero_int]

theorem IsBit.testBit_lor {m : Int} {k : Nat} (h : IsBit m k) (o : Int) (j : Nat) :
    Int.testBit (Int.lor o m) j = if j = k then true else Int.testBit o j := by
  rw [Int.testBit_lor, h j]
  by_cases hj : j = k <;> simp [hj]

theorem IsBit.testBit_land_lnot {m : Int} {k : Nat} (h : IsBit m k) (o : Int) (j : Nat) :
    Int.testBit (Int.land o (Int.lnot m)) j = if j = k then false else Int.testBit o j := by
  rw [Int.testBit_land, Int.testBit_lnot, h j]
  by_cases hj : j = k <;> simp [hj]

theorem IsBit.lor_eq_self_iff {m : Int} {k : Nat} (h : IsBit m k) (o : Int) :
    Int.lor o m = o ↔ Int.testBit o k = true := by
  constructor
  · intro e
    have := h.testBit_lor o k
    rw [e] at this
    simpa using this
  · intro ho
    apply int_eq_of_testBit_eq
    intro j
    rw [h.testBit_lor]
    by_cases hj : j = k
    · subst hj; simp [ho]
    · simp [hj]

theorem IsBit.land_lnot_eq_self_iff {m : Int} {k : Nat} (h : IsBit m k) (o : Int) :
    Int.land o (Int.lnot m) = o ↔ Int.testBit o k = false := by
  constructor
  · intro e
    have := h.testBit_land_lnot o k
    rw [e] at this
    simpa using this
  · intro ho
    apply int_eq_of_testBit_eq
    intro j
    rw [h.testBit_land_lnot]
    by_cases hj : j = k
    · subst hj; simp [ho]
    · simp [hj]


theorem Flag.mask_isBit (f : Flag) : IsBit f.mask f.bit := by
  cases f
  · exact isBit_natPow 0
  · exact isBit_natPow 2
  · exact isBit_natPow 3
  · exact isBit_natPow 1

theorem Flag.bit_injective {f g : Flag} (h : f ≠ g) : f.bit ≠ g.bit := by
  cases f <;> cases g <;> simp [Flag.bit] at h ⊢

theorem Flag.set_eq (f : Flag) (s : IoState) (h : Nat) :
    f.set s h = IoRegex_cloneWithOptions_ s h (Int.lor (s.objects h).options f.mask) := by
  cases f <;> rfl

theorem Flag.clear_eq (f : Flag) (s : IoState) (h : Nat) :
    f.clear s h =
      IoRegex_cloneWithOptions_ s h (Int.land (s.objects h).options (Int.lnot f.mask)) := by
  cases f <;> rfl

theorem Flag.query_eq (f : Flag) (s : IoState) (h : Nat) :
    f.query s h = IOBOOL (Int.land (s.objects h).options f.mask) := by
  cases f <;> rfl

theorem Flag.query_eq_testBit (f : Flag) (s : IoState) (h : Nat) :
    f.query s h = Int.testBit (s.objects h).options f.bit := by
  rw [Flag.query_eq, IOBOOL, f.mask_isBit.land_eq]
  cases ho : Int.testBit (s.objects h).options f.bit <;> simp [f.mask_isBit.ne_zero]

/-! ## Store lemmas -/

@[simp] theorem setData_objects (s : IoState) (a : Nat) (d : IoRegexData) (h : Nat) :
    (s.setData a d).objects h = if h = a then d else s.objects h := rfl

@[simp] theorem setData_allocated (s : IoState) (a : Nat) (d : IoRegexData) :
    (s.setData a d).allocated = s.allocated := rfl

@[simp] theorem setData_proto (s : IoState) (a : Nat) (d : IoRegexData) :
    (s.setData a d).proto = s.proto := rfl

@[simp] theorem setData_compileLog (s : IoState) (a : Nat) (d : IoRegexData) :
    (s.setData a d).compileLog = s.compileLog := rfl

theorem cloneWithOptions_options (s : IoState) (h : Nat) (o : Int) :
    ((IoRegex_cloneWithOptions_ s h o).1.objects (IoRegex_cloneWithOptions_ s h o).2).options
      = o := by
  unfold IoRegex_cloneWithOptions_
  split
  · rename_i e
    exact e.symm
  · simp [IoRegex_rawClone]

theorem cloneWithOptions_same (s : IoState) (h : Nat) (o : Int)
    (e : o = (s.objects h).options) : IoRegex_cloneWithOptions_ s h o = (s, h) := by
  unfold IoRegex_cloneWithOptions_
  rw [if_pos e]

/-! ## Flag derivation -/

theorem rawClone_derivedFresh (s : IoState) (h : Nat) (o : Int) (hlive : s.live h)
    (hne : o ≠ (s.objects h).options) :
    DerivedFresh s h (IoRegex_cloneWithOptions_ s h o) o := by
  unfold IoState.live at hlive
  unfold IoRegex_cloneWithOptions_
  rw [if_neg hne]
  refine ⟨?_, ?_, ?_, ?_, ?_, ?_, ?_, ?_, ?_⟩
  · show s.allocated ≠ h
    omega
  · show ¬ (s.allocated < s.allocated)
    omega
  · show s.allocated < s.allocated + 1
    omega
  · simp [IoRegex_rawClone, IoRegexData.fresh]
  · simp [IoRegex_rawClone]
  · simp [IoRegex_rawClone, IoRegexData.fresh]
  · simp [IoRegex_rawClone, IoRegexData.fresh]
  · intro h' hl
    unfold IoState.live at hl
    have : h' ≠ s.allocated := by omega
    simp [IoRegex_rawClone, this]
  · rfl

theorem query_set_self (s : IoState) (h : Nat) (f : Flag) :
    f.query (f.set s h).1 (f.set s h).2 = true := by
  rw [Flag.query_eq_testBit, Flag.set_eq, cloneWithOptions_options, f.mask_isBit.testBit_lor]
  simp

theorem query_clear_self (s : IoState) (h : Nat) (f : Flag) :
    f.query (f.clear s h).1 (f.clear s h).2 = false := by
  rw [Flag.query_eq_testBit, Flag.clear_eq, cloneWithOptions_options,
    f.mask_isBit.testBit_land_lnot]
  simp

theorem set_of_query_true (s : IoState) (h : Nat) (f : Flag) (hq : f.query s h = true) :
    f.set s h = (s, h) := by
  rw [Flag.query_eq_testBit] at hq
  rw [Flag.set_eq]
  exact cloneWithOptions_same s h _ ((f.mask_isBit.lor_eq_self_iff _).2 hq)

theorem clear_of_query_false (s : IoState) (h : Nat) (f : Flag) (hq : f.query s h = false) :
    f.clear s h = (s, h) := by
  rw [Flag.query_eq_testBit] at hq
  rw [Flag.clear_eq]
  exact cloneWithOptions_same s h _ ((f.mask_isBit.land_lnot_eq_self_iff _).2 hq)

/-- C1: for every state, handle and flag, the handle the set method returns
answers true to the flag's query, and the handle the clear method returns
answers false. -/
theorem set_query_true_clear_query_false (s : IoState) (h : Nat) (f : Flag) :
    f.query (f.set s h).1 (f.set s h).2 = true ∧
    f.query (f.clear s h).1 (f.clear s h).2 = false :=
  ⟨query_set_self s h f, query_clear_self s h f⟩

/-- C2: when the flag is already set on the handle the set method returns the
handle itself and leaves the state as it was (no clone is made); when the flag
is already clear the clear method does.  So a set method sent to what the same
set method returned, and a clear method sent to what the same clear method
returned, return that handle and state again. -/
theorem derive_same_state_returns_self (s : IoState) (h : Nat) (f : Flag) :
    (f.query s h = true → f.set s h = (s, h)) ∧
    (f.query s h = false → f.clear s h = (s, h)) ∧
    f.set (f.set s h).1 (f.set s h).2 = f.set s h ∧
    f.clear (f.clear s h).1 (f.clear s h).2 = f.clear s h :=
  ⟨set_of_query_true s h f, clear_of_query_false s h f,
   set_of_query_true _ _ f (query_set_self s h f),
   clear_of_query_false _ _ f (query_clear_self s h f)⟩

theorem derive_same_state_returns_self_witness :
    (Flag.caseless.query stateCaseless.1 2 = true ∧
      Flag.caseless.set stateCaseless.1 2 = (stateCaseless.1, 2)) ∧
    (Flag.caseless.query stateCaseless.1 1 = false ∧
      Flag.caseless.clear stateCaseless.1 1 = (stateCaseless.1, 1)) :=
  ⟨⟨by decide, (derive_same_state_returns_self stateCaseless.1 2 .caseless).1 (by decide)⟩,
   ⟨by decide, (derive_same_state_returns_self stateCaseless.1 1 .caseless).2.1 (by decide)⟩⟩

/-- C3: for a live handle whose flag state differs from the requested one, the
set method (flag clear) and the clear method (flag set) return a new handle,
other than the receiver, with the receiver's pattern, the requested option bits,
no matcher and no map, whatever the receiver has cached; the receiver and every
other object stay as they were. -/
theorem derive_changed_state_is_fresh (s : IoState) (h : Nat) (f : Flag) (hlive : s.live h) :
    (f.query s h = false →
      DerivedFresh s h (f.set s h) (Int.lor (s.objects h).options f.mask)) ∧
    (f.query s h = true →
      DerivedFresh s h (f.clear s h) (Int.land (s.objects h).options (Int.lnot f.mask))) := by
  constructor
  · intro hq
    rw [Flag.query_eq_testBit] at hq
    rw [Flag.set_eq]
    apply rawClone_derivedFresh s h _ hlive
    intro e
    rw [(f.mask_isBit.lor_eq_self_iff _).1 e] at hq
    exact Bool.noConfusion hq
  · intro hq
    rw [Flag.query_eq_testBit] at hq
    rw [Flag.clear_eq]
    apply rawClone_derivedFresh s h _ hlive
    intro e
    rw [(f.mask_isBit.land_lnot_eq_self_iff _).1 e] at hq
    exact Bool.noConfusion hq

theorem derive_changed_state_is_fresh_witness :
    (stateCached.1.live 1 ∧
      (stateCached.1.objects 1).regex ≠ none ∧
      (stateCached.1.objects 1).nameToIndexMap ≠ none ∧
      Flag.dotAll.query stateCached.1 1 = false) ∧
    DerivedFresh stateCached.1 1 (Flag.dotAll.set stateCached.1 1)
      (Int.lor (stateCached.1.objects 1).options Flag.dotAll.mask) :=
  ⟨⟨by decide, by decide, by decide, by decide⟩,
   (derive_changed_state_is_fresh stateCached.1 1 .dotAll (by decide)).1 (by decide)⟩

theorem query_set_other (s : IoState) (h : Nat) {f g : Flag} (hfg : f ≠ g) :
    g.query (f.set s h).1 (f.set s h).2 = g.query s h := by
  have hb : g.bit ≠ f.bit := fun e => Flag.bit_injective hfg e.symm
  rw [Flag.query_eq_testBit, Flag.query_eq_testBit, Flag.set_eq, cloneWithOptions_options,
    f.mask_isBit.testBit_lor, if_neg hb]

theorem query_clear_other (s : IoState) (h : Nat) {f g : Flag} (hfg : f ≠ g) :
    g.query (f.clear s h).1 (f.clear s h).2 = g.query s h := by
  have hb : g.bit ≠ f.bit := fun e => Flag.bit_injective hfg e.symm
  rw [Flag.query_eq_testBit, Flag.query_eq_testBit, Flag.clear_eq, cloneWithOptions_options,
    f.mask_isBit.testBit_land_lnot, if_neg hb]

theorem query_setAll (fs : List Flag) (s : IoState) (h : Nat) (g : Flag) :
    g.query (setAll fs s h).1 (setAll fs s h).2 = (decide (g ∈ fs) || g.query s h) := by
  induction fs generalizing s h with
  | nil => simp [setAll]
  | cons f fs ih =>
    rw [setAll, ih]
    by_cases hfg : f = g
    · subst hfg
      rw [query_set_self s h f]
      simp
    · rw [query_set_other s h hfg]
      have : g ≠ f := fun e => hfg e.symm
      simp [this]

theorem with_query_false (s : IoState) (self : Nat) (p : String) (f : Flag) :
    f.query (IoRegex_with s self p).1 (IoRegex_with s self p).2 = false := by
  rw [Flag.query_eq]
  have : ((IoRegex_with s self p).1.objects (IoRegex_with s self p).2).options = 0 := by
    simp [IoRegex_with, IoRegex_newWithPattern_, IoRegex_new, IoRegex_rawClone,
      IoRegexData.fresh]
  rw [this]
  cases f <;> decide

/-- C4: the flags are independent: for distinct flags `f` and `g` the query
for `g` answers on the handle the set method of `f` returns, and on the handle
its clear method returns, what it answers on the receiver; and for every subset
of the four flags, sending the set methods of its members one after the other,
starting from a new handle, gives a handle on which the queries answer true
for exactly the members of the subset. -/
theorem flags_independent (s : IoState) (h : Nat) (f g : Flag) :
    (f ≠ g →
      g.query (f.set s h).1 (f.set s h).2 = g.query s h ∧
      g.query (f.clear s h).1 (f.clear s h).2 = g.query s h) ∧
    ∀ (subset : Flag → Bool) (self : Nat) (p : String) (q : Flag),
      q.query
        (setAll (Flag.all.filter subset) (IoRegex_with s self p).1 (IoRegex_with s self p).2).1
        (setAll (Flag.all.filter subset) (IoRegex_with s self p).1 (IoRegex_with s self p).2).2
        = subset q := by
  refine ⟨fun hfg => ⟨query_set_other s h hfg, query_clear_other s h hfg⟩, ?_⟩
  intro subset self p q
  rw [query_setAll, with_query_false]
  cases hq : subset q <;> cases q <;> simp [Flag.all, List.mem_filter, hq]

theorem flags_independent_witness :
    Flag.caseless ≠ Flag.multiline ∧
    Flag.multiline.query (Flag.caseless.set stateWith.1 1).1 (Flag.caseless.set stateWith.1 1).2
      = Flag.multiline.query stateWith.1 1 ∧
    Flag.multiline.query (Flag.caseless.clear stateCaseless.1 2).1
        (Flag.caseless.clear stateCaseless.1 2).2
      = Flag.multiline.query stateCaseless.1 2 :=
  ⟨by decide,
   ((flags_independent stateWith.1 1 .caseless .multiline).1 (by decide)).1,
   ((flags_independent stateCaseless.1 2 .caseless .multiline).1 (by decide)).2⟩

/-! ## Construction -/

/-- C5: for every pattern, every state and every receiver, `with` makes a new
handle without a call of the compiler: the compile log is as it was, the handle
is a new object, its pattern is the given one, its four queries answer false,
and it has neither a matcher nor a map; the objects that existed stay as they
were. -/
theorem with_makes_fresh_handle (s : IoState) (self : Nat) (p : String) :
    (IoRegex_with s self p).1.compileLog = s.compileLog ∧
    ¬ s.live (IoRegex_with s self p).2 ∧
    (IoRegex_with s self p).1.live (IoRegex_with s self p).2 ∧
    IoRegex_pattern (IoRegex_with s self p).1 (IoRegex_with s self p).2 = p ∧
    (∀ f : Flag, f.query (IoRegex_with s self p).1 (IoRegex_with s self p).2 = false) ∧
    ((IoRegex_with s self p).1.objects (IoRegex_with s self p).2).regex = none ∧
    ((IoRegex_with s self p).1.objects (IoRegex_with s self p).2).nameToIndexMap = none ∧
    (∀ h, s.live h → (IoRegex_with s self p).1.objects h = s.objects h) := by
  refine ⟨rfl, ?_, ?_, ?_, with_query_false s self p, ?_, ?_, ?_⟩
  · show ¬ (s.allocated < s.allocated)
    omega
  · show s.allocated < s.allocated + 1
    omega
  · simp [IoRegex_pattern, IoRegex_with, IoRegex_newWithPattern_, IoRegex_new, IoRegex_rawClone]
  · simp [IoRegex_with, IoRegex_newWithPattern_, IoRegex_new, IoRegex_rawClone,
      IoRegexData.fresh]
  · simp [IoRegex_with, IoRegex_newWithPattern_, IoRegex_new, IoRegex_rawClone,
      IoRegexData.fresh]
  · intro h hl
    unfold IoState.live at hl
    have : h ≠ s.allocated := by omega
    simp [IoRegex_with, IoRegex_newWithPattern_, IoRegex_new, IoRegex_rawClone, this]

/-! ## Effects of the forcing operations -/

theorem rawRegex_result (c : Compiler) (s : IoState) (a : Nat) :
    (IoRegex_rawRegex c s a).2 =
      match (s.objects a).regex with
      | some regex => regex
      | none => c (s.objects a).pattern (s.objects a).options := by
  unfold IoRegex_rawRegex
  split <;> simp [*]

theorem rawRegex_objects (c : Compiler) (s : IoState) (a h : Nat) :
    (IoRegex_rawRegex c s a).1.objects h =
      if h = a then { s.objects a with regex := some (IoRegex_rawRegex c s a).2 }
      else s.objects h := by
  unfold IoRegex_rawRegex
  split
  · rename_i regex e
    by_cases ha : h = a
    · subst ha
      simp only [if_true]
      cases hd : s.objects h
      rw [hd] at e
      simp_all
    · simp [ha]
  · simp

theorem rawRegex_allocated (c : Compiler) (s : IoState) (a : Nat) :
    (IoRegex_rawRegex c s a).1.allocated = s.allocated := by
  unfold IoRegex_rawRegex
  split <;> rfl

theorem rawRegex_compileLog (c : Compiler) (s : IoState) (a : Nat) :
    (IoRegex_rawRegex c s a).1.compileLog =
      if (s.objects a).regex.isSome then s.compileLog
      else s.compileLog ++ [(a, (s.objects a).pattern, (s.objects a).options)] := by
  unfold IoRegex_rawRegex
  split <;> simp [*]

theorem rawRegex_cached (c : Compiler) (s : IoState) (a : Nat) (regex : Regex)
    (e : (s.objects a).regex = some regex) : IoRegex_rawRegex c s a = (s, regex) := by
  unfold IoRegex_rawRegex
  rw [e]

theorem nameToIndexMap_cached (c : Compiler) (s : IoState) (a : Nat) (map : IoMap)
    (e : (s.objects a).nameToIndexMap = some map) : IoRegex_nameToIndexMap c s a = (s, map) := by
  unfold IoRegex_nameToIndexMap
  rw [e]

theorem rawRegex_setMap_result (c : Compiler) (s : IoState) (a : Nat) (m : Option IoMap) :
    (IoRegex_rawRegex c (s.setData a { s.objects a with nameToIndexMap := m }) a).2
      = (IoRegex_rawRegex c s a).2 := by
  rw [rawRegex_result, rawRegex_result]
  simp

theorem nameToIndexMap_result (c : Compiler) (s : IoState) (a : Nat)
    (e : (s.objects a).nameToIndexMap = none) :
    (IoRegex_nameToIndexMap c s a).2 = mapOfRegex (IoRegex_rawRegex c s a).2 := by
  unfold IoRegex_nameToIndexMap
  rw [e]
  simp only [rawRegex_setMap_result, mapOfRegex]
  split <;> simp [*]

theorem nameToIndexMap_objects (c : Compiler) (s : IoState) (a h : Nat)
    (e : (s.objects a).nameToIndexMap = none) :
    (IoRegex_nameToIndexMap c s a).1.objects h =
      if h = a then
        { s.objects a with
            regex := some (IoRegex_rawRegex c s a).2,
            nameToIndexMap := some (mapOfRegex (IoRegex_rawRegex c s a).2) }
      else s.objects h := by
  unfold IoRegex_nameToIndexMap
  rw [e]
  simp only [rawRegex_setMap_result, mapOfRegex]
  split
  · rename_i e2
    simp only [rawRegex_objects, rawRegex_setMap_result, setData_objects, e2]
    by_cases ha : h = a <;> simp [ha, IoMap_new]
  · rename_i caps e2
    simp only [rawRegex_objects, rawRegex_setMap_result, setData_objects, e2]
    by_cases ha : h = a <;> simp [ha]

theorem nameToIndexMap_allocated (c : Compiler) (s : IoState) (a : Nat) :
    (IoRegex_nameToIndexMap c s a).1.allocated = s.allocated := by
  unfold IoRegex_nameToIndexMap
  split
  · rfl
  · simp only
    split <;> simp [rawRegex_allocated]

theorem nameToIndexMap_compileLog (c : Compiler) (s : IoState) (a : Nat)
    (e : (s.objects a).nameToIndexMap = none) :
    (IoRegex_nameToIndexMap c s a).1.compileLog = (IoRegex_rawRegex c s a).1.compileLog := by
  unfold IoRegex_nameToIndexMap
  rw [e]
  simp only
  split <;> simp [rawRegex_compileLog]

/-! ## Effects of the operations -/

theorem rawClone_allocates (s : IoState) (a : Nat) (o : Int) :
    Allocates s
      ((IoRegex_rawClone s a).1.setData (IoRegex_rawClone s a).2
        { (IoRegex_rawClone s a).1.objects (IoRegex_rawClone s a).2 with options := o }) := by
  refine ⟨rfl, rfl, ?_, ?_, ?_⟩
  · intro h hne
    simp [IoRegex_rawClone, hne]
  · simp [IoRegex_rawClone, IoRegexData.fresh]
  · simp [IoRegex_rawClone, IoRegexData.fresh]

theorem cloneWithOptions_effect (s : IoState) (a : Nat) (o : Int) :
    (IoRegex_cloneWithOptions_ s a o).1 = s ∨ Allocates s (IoRegex_cloneWithOptions_ s a o).1 := by
  unfold IoRegex_cloneWithOptions_
  split
  · exact Or.inl rfl
  · exact Or.inr (rawClone_allocates s a o)

theorem with_allocates (s : IoState) (self : Nat) (p : String) :
    Allocates s (IoRegex_with s self p).1 := by
  refine ⟨rfl, rfl, ?_, ?_, ?_⟩
  · intro h hne
    simp [IoRegex_with, IoRegex_newWithPattern_, IoRegex_new, IoRegex_rawClone, hne]
  · simp [IoRegex_with, IoRegex_newWithPattern_, IoRegex_new, IoRegex_rawClone,
      IoRegexData.fresh]
  · simp [IoRegex_with, IoRegex_newWithPattern_, IoRegex_new, IoRegex_rawClone,
      IoRegexData.fresh]

theorem rawRegex_forces (c : Compiler) (s : IoState) (a : Nat) :
    Forces c s (IoRegex_rawRegex c s a).1 a := by
  refine ⟨rawRegex_allocated c s a, rfl, ?_, ?_, ?_, ?_, Or.inl ?_⟩
  · intro h hne
    rw [rawRegex_objects, if_neg hne]
  · rw [rawRegex_objects, if_pos rfl]
  · rw [rawRegex_objects, if_pos rfl]
  · rw [rawRegex_objects, if_pos rfl]
  · rw [rawRegex_objects, if_pos rfl]

theorem nameToIndexMap_effect (c : Compiler) (s : IoState) (a : Nat) :
    (IoRegex_nameToIndexMap c s a).1 = s ∨ Forces c s (IoRegex_nameToIndexMap c s a).1 a := by
  cases e : (s.objects a).nameToIndexMap with
  | some map => exact Or.inl (by rw [nameToIndexMap_cached c s a map e])
  | none =>
    refine Or.inr ⟨nameToIndexMap_allocated c s a, nameToIndexMap_compileLog c s a e,
      ?_, ?_, ?_, ?_, Or.inr ⟨e, ?_⟩⟩
    · intro h hne
      rw [nameToIndexMap_objects c s a h e, if_neg hne]
    · rw [nameToIndexMap_objects c s a a e, if_pos rfl]
    · rw [nameToIndexMap_objects c s a a e, if_pos rfl]
    · rw [nameToIndexMap_objects c s a a e, if_pos rfl]
    · rw [nameToIndexMap_objects c s a a e, if_pos rfl]

theorem perform_effect (c : Compiler) (s : IoState) (op : Op) :
    (perform c s op).1 = s ∨ Allocates s (perform c s op).1 ∨
      Forces c s (perform c s op).1 op.self := by
  cases op with
  | withPattern self p => exact Or.inr (Or.inl (with_allocates s self p))
  | pattern self => exact Or.inl rfl
  | captureCount self => exact Or.inr (Or.inr (rawRegex_forces c s self))
  | nameToIndexMap self =>
    rcases nameToIndexMap_effect c s self with h | h
    · exact Or.inl h
    · exact Or.inr (Or.inr h)
  | rawRegex self => exact Or.inr (Or.inr (rawRegex_forces c s self))
  | set f self =>
    show (f.set s self).1 = s ∨ Allocates s (f.set s self).1 ∨ _
    rw [Flag.set_eq]
    rcases cloneWithOptions_effect s self (Int.lor (s.objects self).options f.mask) with h | h
    · exact Or.inl h
    · exact Or.inr (Or.inl h)
  | clear f self =>
    show (f.clear s self).1 = s ∨ Allocates s (f.clear s self).1 ∨ _
    rw [Flag.clear_eq]
    rcases cloneWithOptions_effect s self
      (Int.land (s.objects self).options (Int.lnot f.mask)) with h | h
    · exact Or.inl h
    · exact Or.inr (Or.inl h)
  | query f self => exact Or.inl rfl

/-! ## The compile log -/

theorem compileCount_append (s : IoState) (log : List (Nat × String × Int)) (a h : Nat)
    (p : String) (o : Int) (e : log = s.compileLog ++ [(a, p, o)]) :
    (log.filter (fun x => decide (x.1 = h))).length =
      s.compileCount h + (if a = h then 1 else 0) := by
  subst e
  unfold IoState.compileCount
  by_cases hah : a = h <;> simp [List.filter_append, List.filter_cons, hah]

theorem logConsistent_proto : LogConsistent IoRegex_proto.1 := by
  intro h
  exact ⟨rfl, fun _ => rfl⟩

theorem allocates_logConsistent {s s' : IoState} (hA : Allocates s s')
    (hL : LogConsistent s) : LogConsistent s' := by
  obtain ⟨hal, hlog, hobj, hre, _⟩ := hA
  intro h
  have hc : s'.compileCount h = s.compileCount h := by
    unfold IoState.compileCount
    rw [hlog]
  by_cases hh : h = s.allocated
  · subst hh
    have hnl : ¬ s.live s.allocated := by
      unfold IoState.live
      omega
    have h0 := (hL s.allocated).2 hnl
    have h1 := (hL s.allocated).1
    rw [h0] at h1
    rw [hc, h1, hre]
    exact ⟨by simp, fun _ => rfl⟩
  · rw [hc, hobj h hh]
    refine ⟨(hL h).1, fun hnl => (hL h).2 ?_⟩
    unfold IoState.live at hnl ⊢
    omega

theorem forces_logConsistent {c : Compiler} {s s' : IoState} {a : Nat} (hF : Forces c s s' a)
    (ha : s.live a) (hL : LogConsistent s) : LogConsistent s' := by
  obtain ⟨hal, hlog, hobj, _, _, hre, _⟩ := hF
  intro h
  constructor
  · by_cases hh : h = a
    · subst hh
      rw [hre]
      cases e : (s.objects h).regex with
      | some regex =>
        have h1 := (hL h).1
        rw [e] at h1
        unfold IoState.compileCount at h1 ⊢
        rw [hlog, rawRegex_compileLog, e]
        simpa using h1
      | none =>
        have h1 := (hL h).1
        rw [e] at h1
        unfold IoState.compileCount
        rw [hlog, compileCount_append s _ h h _ _ (by rw [rawRegex_compileLog, e]; rfl), h1]
        simp
    · rw [hobj h hh, ← (hL h).1]
      cases e : (s.objects a).regex with
      | some regex =>
        unfold IoState.compileCount
        rw [hlog, rawRegex_compileLog, e]
        rfl
      | none =>
        have hne : a ≠ h := fun x => hh x.symm
        unfold IoState.compileCount
        rw [hlog, compileCount_append s _ a h _ _ (by rw [rawRegex_compileLog, e]; rfl)]
        simp [hne, IoState.compileCount]
  · intro hnl
    have hh : h ≠ a := by
      intro x
      subst x
      unfold IoState.live at hnl ha
      omega
    rw [hobj h hh]
    apply (hL h).2
    unfold IoState.live at hnl ⊢
    omega

theorem reachable_logConsistent {c : Compiler} {s : IoState} (hs : Reachable c s) :
    LogConsistent s := by
  induction hs with
  | proto => exact logConsistent_proto
  | step op _ hlive ih =>
    rcases perform_effect c _ op with h | h | h
    · rw [h]; exact ih
    · exact allocates_logConsistent h ih
    · exact forces_logConsistent h hlive ih

/-! ## The caches -/

theorem cacheConsistent_proto (c : Compiler) : CacheConsistent c IoRegex_proto.1 := by
  intro h
  constructor
  · intro regex e
    exact Option.noConfusion e
  · intro map e
    exact Option.noConfusion e

theorem allocates_cacheConsistent {c : Compiler} {s s' : IoState} (hA : Allocates s s')
    (hC : CacheConsistent c s) : CacheConsistent c s' := by
  obtain ⟨_, _, hobj, hre, hmap⟩ := hA
  intro h
  by_cases hh : h = s.allocated
  · subst hh
    rw [hre, hmap]
    exact ⟨fun _ e => Option.noConfusion e, fun _ e => Option.noConfusion e⟩
  · rw [hobj h hh]
    exact hC h

theorem forces_cacheConsistent {c : Compiler} {s s' : IoState} {a : Nat} (hF : Forces c s s' a)
    (hC : CacheConsistent c s) : CacheConsistent c s' := by
  obtain ⟨_, _, hobj, hpat, hopt, hre, hmap⟩ := hF
  intro h
  by_cases hh : h = a
  · subst hh
    have hres : (IoRegex_rawRegex c s h).2 = c (s.objects h).pattern (s.objects h).options := by
      rw [rawRegex_result]
      cases e : (s.objects h).regex with
      | some regex => exact (hC h).1 regex e
      | none => rfl
    constructor
    · intro regex e
      rw [hre] at e
      rw [hpat, hopt, ← hres]
      exact (Option.some.inj e).symm
    · intro map e
      refine ⟨_, hre, ?_⟩
      rcases hmap with hm | ⟨_, hm⟩
      · rw [hm] at e
        obtain ⟨regex, e1, e2⟩ := (hC h).2 map e
        rw [rawRegex_result, e1]
        exact e2
      · rw [hm] at e
        exact (Option.some.inj e).symm
  · rw [hobj h hh]
    exact hC h

theorem reachable_cacheConsistent {c : Compiler} {s : IoState} (hs : Reachable c s) :
    CacheConsistent c s := by
  induction hs with
  | proto => exact cacheConsistent_proto c
  | step op _ _ ih =>
    rcases perform_effect c _ op with h | h | h
    · rw [h]; exact ih
    · exact allocates_cacheConsistent h ih
    · exact forces_cacheConsistent h ih

theorem perform_frame (c : Compiler) (s : IoState) (op : Op) (h : Nat) (hl : s.live h) :
    ((perform c s op).1.objects h).pattern = (s.objects h).pattern ∧
    ((perform c s op).1.objects h).options = (s.objects h).options ∧
    (∀ regex, (s.objects h).regex = some regex →
      ((perform c s op).1.objects h).regex = some regex) ∧
    (∀ map, (s.objects h).nameToIndexMap = some map →
      ((perform c s op).1.objects h).nameToIndexMap = some map) := by
  rcases perform_effect c s op with e | e | e
  · rw [e]
    exact ⟨rfl, rfl, fun _ x => x, fun _ x => x⟩
  · have hh : h ≠ s.allocated := by
      unfold IoState.live at hl
      omega
    rw [e.2.2.1 h hh]
    exact ⟨rfl, rfl, fun _ x => x, fun _ x => x⟩
  · obtain ⟨_, _, hobj, hpat, hopt, hre, hmap⟩ := e
    by_cases hh : h = op.self
    · subst hh
      refine ⟨hpat, hopt, ?_, ?_⟩
      · intro regex x
        rw [hre, rawRegex_cached c s op.self regex x]
      · intro map x
        rcases hmap with hm | ⟨hm, _⟩
        · rw [hm]; exact x
        · rw [hm] at x
          exact Option.noConfusion x
    · rw [hobj h hh]
      exact ⟨rfl, rfl, fun _ x => x, fun _ x => x⟩

theorem stateForced_reachable : Reachable exampleCompiler stateForced :=
  Reachable.step (.rawRegex 1)
    (Reachable.step (.nameToIndexMap 1)
      (Reachable.step (.captureCount 1)
        (Reachable.step (.withPattern 0 "(?<first>wom)(?<second>bat)") Reachable.proto
          (by decide))
        (by decide))
      (by decide))
    (by decide)

/-- C6: in every state the operations reach, the compiler has been called at
most once for each handle: once when the handle has a matcher, never when it
has none.  On a handle with a matcher the forcing operations return the stored
matcher (or its capture count) and leave the compile log as it is; on a handle
without one each of `IoRegex_rawRegex`, `captureCount` and `nameToIndexMap`
calls the compiler once, on the handle's pattern and option bits, and stores
the result in the handle. -/
theorem compiler_called_at_most_once (compile : Compiler) (s : IoState)
    (hs : Reachable compile s) (h : Nat) :
    s.compileCount h ≤ 1 ∧
    (∀ regex, (s.objects h).regex = some regex →
      s.compileCount h = 1 ∧
      IoRegex_rawRegex compile s h = (s, regex) ∧
      IoRegex_captureCount compile s h = (s, regex.captureCount) ∧
      (IoRegex_nameToIndexMap compile s h).1.compileLog = s.compileLog ∧
      ((IoRegex_nameToIndexMap compile s h).1.objects h).regex = some regex) ∧
    ((s.objects h).regex = none →
      s.compileCount h = 0 ∧
      ((IoRegex_rawRegex compile s h).1.objects h).regex
        = some (IoRegex_rawRegex compile s h).2 ∧
      (IoRegex_rawRegex compile s h).2 = compile (s.objects h).pattern (s.objects h).options ∧
      (IoRegex_rawRegex compile s h).1.compileLog
        = s.compileLog ++ [(h, (s.objects h).pattern, (s.objects h).options)] ∧
      (IoRegex_rawRegex compile s h).1.compileCount h = 1 ∧
      (IoRegex_captureCount compile s h).2
        = (compile (s.objects h).pattern (s.objects h).options).captureCount ∧
      ((IoRegex_captureCount compile s h).1.objects h).regex
        = some (compile (s.objects h).pattern (s.objects h).options) ∧
      (IoRegex_captureCount compile s h).1.compileLog
        = s.compileLog ++ [(h, (s.objects h).pattern, (s.objects h).options)] ∧
      (IoRegex_captureCount compile s h).1.compileCount h = 1 ∧
      (IoRegex_nameToIndexMap compile s h).2
        = mapOfRegex (compile (s.objects h).pattern (s.objects h).options) ∧
      ((IoRegex_nameToIndexMap compile s h).1.objects h).regex
        = some (compile (s.objects h).pattern (s.objects h).options) ∧
      (IoRegex_nameToIndexMap compile s h).1.compileLog
        = s.compileLog ++ [(h, (s.objects h).pattern, (s.objects h).options)] ∧
      (IoRegex_nameToIndexMap compile s h).1.compileCount h = 1) := by
  have hL := reachable_logConsistent hs
  have hC := reachable_cacheConsistent hs
  have hcount := (hL h).1
  refine ⟨?_, ?_, ?_⟩
  · rw [hcount]
    split <;> omega
  · intro regex e
    rw [e] at hcount
    have hraw := rawRegex_cached compile s h regex e
    refine ⟨by simpa using hcount, hraw, ?_, ?_, ?_⟩
    · unfold IoRegex_captureCount
      rw [hraw]
    · rcases nameToIndexMap_effect compile s h with x | x
      · rw [x]
      · rw [x.2.1, hraw]
    · rcases nameToIndexMap_effect compile s h with x | x
      · rw [x]; exact e
      · rw [x.2.2.2.2.2.1, hraw]
  · intro e
    rw [e] at hcount
    have hres : (IoRegex_rawRegex compile s h).2
        = compile (s.objects h).pattern (s.objects h).options := by
      rw [rawRegex_result, e]
    have hlog : (IoRegex_rawRegex compile s h).1.compileLog
        = s.compileLog ++ [(h, (s.objects h).pattern, (s.objects h).options)] := by
      rw [rawRegex_compileLog, e]
      rfl
    have hstored : ((IoRegex_rawRegex compile s h).1.objects h).regex
        = some (IoRegex_rawRegex compile s h).2 := by
      rw [rawRegex_objects, if_pos rfl]
    have hone : (IoRegex_rawRegex compile s h).1.compileCount h = 1 := by
      unfold IoState.compileCount
      rw [compileCount_append s _ h h _ _ hlog, hcount]
      simp
    have hm : (s.objects h).nameToIndexMap = none := by
      cases em : (s.objects h).nameToIndexMap with
      | none => rfl
      | some map =>
        obtain ⟨regex, e1, _⟩ := (hC h).2 map em
        rw [e] at e1
        exact Option.noConfusion e1
    have hmlog : (IoRegex_nameToIndexMap compile s h).1.compileLog
        = s.compileLog ++ [(h, (s.objects h).pattern, (s.objects h).options)] := by
      rw [nameToIndexMap_compileLog compile s h hm, hlog]
    refine ⟨by simpa using hcount, hstored, hres, hlog, hone, ?_, ?_, hlog, hone,
      ?_, ?_, hmlog, ?_⟩
    · show (IoRegex_rawRegex compile s h).2.captureCount = _
      rw [hres]
    · show ((IoRegex_rawRegex compile s h).1.objects h).regex = _
      rw [hstored, hres]
    · rw [nameToIndexMap_result compile s h hm, hres]
    · rw [nameToIndexMap_objects compile s h h hm, if_pos rfl, hres]
    · unfold IoState.compileCount
      rw [compileCount_append s _ h h _ _ hmlog, hcount]
      simp

theorem compiler_called_at_most_once_witness :
    Reachable exampleCompiler stateForced ∧ stateForced.compileCount 1 ≤ 1 ∧
      stateForced.compileLog = [(1, "(?<first>wom)(?<second>bat)", 0)] ∧
      (Reachable exampleCompiler stateNamed.1 ∧ (stateNamed.1.objects 1).regex = none ∧
        (IoRegex_captureCount exampleCompiler stateNamed.1 1).1.compileCount 1 = 1 ∧
        (IoRegex_nameToIndexMap exampleCompiler stateNamed.1 1).1.compileCount 1 = 1) :=
  ⟨stateForced_reachable,
   (compiler_called_at_most_once exampleCompiler stateForced stateForced_reachable 1).1,
   by decide,
   Reachable.step (.withPattern 0 "(?<first>wom)(?<second>bat)") Reachable.proto (by decide),
   by decide,
   ((compiler_called_at_most_once exampleCompiler stateNamed.1
      (Reachable.step (.withPattern 0 "(?<first>wom)(?<second>bat)") Reachable.proto
        (by decide)) 1).2.2 (by decide)).2.2.2.2.2.2.2.2.1,
   ((compiler_called_at_most_once exampleCompiler stateNamed.1
      (Reachable.step (.withPattern 0 "(?<first>wom)(?<second>bat)") Reachable.proto
        (by decide)) 1).2.2 (by decide)).2.2.2.2.2.2.2.2.2.2.2.2⟩

/-- C10: in every state the operations reach, a handle's cached matcher is the
result of compiling the handle's pattern with the handle's option bits, and a
handle's cached map is the map built from the handle's cached matcher; and no
operation changes the pattern, the option bits, a cached matcher or a cached
map of a live handle. -/
theorem cache_consistency_invariant (compile : Compiler) (s : IoState)
    (hs : Reachable compile s) :
    CacheConsistent compile s ∧
    ∀ (op : Op) (h : Nat), s.live h →
      ((perform compile s op).1.objects h).pattern = (s.objects h).pattern ∧
      ((perform compile s op).1.objects h).options = (s.objects h).options ∧
      (∀ regex, (s.objects h).regex = some regex →
        ((perform compile s op).1.objects h).regex = some regex) ∧
      (∀ map, (s.objects h).nameToIndexMap = some map →
        ((perform compile s op).1.objects h).nameToIndexMap = some map) :=
  ⟨reachable_cacheConsistent hs, fun op h hl => perform_frame compile s op h hl⟩

theorem cache_consistency_invariant_witness :
    Reachable exampleCompiler stateForced ∧ CacheConsistent exampleCompiler stateForced ∧
      (stateForced.objects 1).regex
        = some (exampleCompiler "(?<first>wom)(?<second>bat)" 0) ∧
      (stateForced.objects 1).nameToIndexMap = some [("first", 1), ("second", 2)] :=
  ⟨stateForced_reachable,
   (cache_consistency_invariant exampleCompiler stateForced stateForced_reachable).1,
   by decide, by decide⟩

/-! ## The name-to-index map -/

theorem rawAt_rawAtPut (m : IoMap) (k : String) (v : Int) (k' : String) :
    IoMap_rawAt (IoMap_rawAtPut m k v) k' = if k = k' then some v else IoMap_rawAt m k' := by
  induction m with
  | nil => simp [IoMap_rawAtPut, IoMap_rawAt]
  | cons e rest ih =>
    obtain ⟨k0, v0⟩ := e
    unfold IoMap_rawAtPut
    by_cases h0 : k0 = k
    · subst h0
      by_cases h1 : k0 = k' <;> simp [IoMap_rawAt, h1]
    · rw [if_neg h0]
      unfold IoMap_rawAt
      rw [ih]
      by_cases h1 : k0 = k'
      · subst h1
        have : ¬ k = k0 := fun x => h0 x.symm
        simp [this]
      · simp [h1]

theorem mem_keys_rawAtPut (m : IoMap) (k : String) (v : Int) (k' : String) :
    k' ∈ IoMap_keys (IoMap_rawAtPut m k v) ↔ k' = k ∨ k' ∈ IoMap_keys m := by
  induction m with
  | nil => simp [IoMap_rawAtPut, IoMap_keys]
  | cons e rest ih =>
    obtain ⟨k0, v0⟩ := e
    unfold IoMap_rawAtPut
    by_cases h0 : k0 = k
    · subst h0
      simp [IoMap_keys]
    · rw [if_neg h0]
      unfold IoMap_keys at ih ⊢
      simp only [List.map_cons, List.mem_cons, ih]
      tauto

theorem nodup_keys_rawAtPut (m : IoMap) (k : String) (v : Int)
    (hm : (IoMap_keys m).Nodup) : (IoMap_keys (IoMap_rawAtPut m k v)).Nodup := by
  induction m with
  | nil => simp [IoMap_rawAtPut, IoMap_keys]
  | cons e rest ih =>
    obtain ⟨k0, v0⟩ := e
    unfold IoMap_rawAtPut
    by_cases h0 : k0 = k
    · subst h0
      simpa [IoMap_keys] using hm
    · rw [if_neg h0]
      have hm' : k0 ∉ IoMap_keys rest ∧ (IoMap_keys rest).Nodup := by
        simpa [IoMap_keys] using hm
      have hk : k0 ∉ IoMap_keys (IoMap_rawAtPut rest k v) := by
        rw [mem_keys_rawAtPut]
        intro x
        rcases x with x | x
        · exact h0 x
        · exact hm'.1 x
      have := ih hm'.2
      show (k0 :: IoMap_keys (IoMap_rawAtPut rest k v)).Nodup
      exact List.nodup_cons.2 ⟨hk, this⟩

theorem putNamedCaptures_cons (m : IoMap) (c : NamedCapture) (l : List NamedCapture) :
    putNamedCaptures m (c :: l) = putNamedCaptures (IoMap_rawAtPut m c.name c.index) l := rfl

theorem putNamedCaptures_append (m : IoMap) (l1 l2 : List NamedCapture) :
    putNamedCaptures m (l1 ++ l2) = putNamedCaptures (putNamedCaptures m l1) l2 := by
  unfold putNamedCaptures
  rw [List.foldl_append]

theorem rawAt_putNamedCaptures_of_absent (l : List NamedCapture) (m : IoMap) (k : String)
    (hl : ∀ c ∈ l, c.name ≠ k) : IoMap_rawAt (putNamedCaptures m l) k = IoMap_rawAt m k := by
  induction l generalizing m with
  | nil => rfl
  | cons c l ih =>
    rw [putNamedCaptures_cons, ih _ (fun c' hc' => hl c' (List.mem_cons_of_mem _ hc')),
      rawAt_rawAtPut, if_neg (hl c (List.mem_cons_self _ _))]

theorem rawAt_putNamedCaptures_last (m : IoMap) (pre post : List NamedCapture)
    (c : NamedCapture) (hpost : ∀ c' ∈ post, c'.name ≠ c.name) :
    IoMap_rawAt (putNamedCaptures m (pre ++ c :: post)) c.name = some c.index := by
  rw [putNamedCaptures_append, putNamedCaptures_cons,
    rawAt_putNamedCaptures_of_absent post _ _ hpost, rawAt_rawAtPut, if_pos rfl]

theorem mem_keys_putNamedCaptures (l : List NamedCapture) (m : IoMap) (k : String) :
    k ∈ IoMap_keys (putNamedCaptures m l) ↔ k ∈ IoMap_keys m ∨ ∃ c ∈ l, c.name = k := by
  induction l generalizing m with
  | nil => simp [putNamedCaptures]
  | cons c l ih =>
    rw [putNamedCaptures_cons, ih, mem_keys_rawAtPut]
    constructor
    · rintro ((h | h) | ⟨c', hc', h⟩)
      · exact Or.inr ⟨c, List.mem_cons_self _ _, h.symm⟩
      · exact Or.inl h
      · exact Or.inr ⟨c', List.mem_cons_of_mem _ hc', h⟩
    · rintro (h | ⟨c', hc', h⟩)
      · exact Or.inl (Or.inr h)
      · rcases List.mem_cons.1 hc' with e | e
        · subst e
          exact Or.inl (Or.inl h.symm)
        · exact Or.inr ⟨c', e, h⟩

theorem nodup_keys_putNamedCaptures (l : List NamedCapture) (m : IoMap)
    (hm : (IoMap_keys m).Nodup) : (IoMap_keys (putNamedCaptures m l)).Nodup := by
  induction l generalizing m with
  | nil => exact hm
  | cons c l ih =>
    rw [putNamedCaptures_cons]
    exact ih _ (nodup_keys_rawAtPut m c.name c.index hm)

theorem exists_last_occurrence (l : List NamedCapture) (k : String)
    (h : ∃ c ∈ l, c.name = k) :
    ∃ pre c post, l = pre ++ c :: post ∧ c.name = k ∧ ∀ c' ∈ post, c'.name ≠ k := by
  induction l with
  | nil =>
    obtain ⟨c, hc, _⟩ := h
    exact absurd hc (List.not_mem_nil c)
  | cons c0 l ih =>
    by_cases hl : ∃ c ∈ l, c.name = k
    · obtain ⟨pre, c, post, e, hc, hpost⟩ := ih hl
      exact ⟨c0 :: pre, c, post, by rw [e]; rfl, hc, hpost⟩
    · obtain ⟨c, hc, hk⟩ := h
      rcases List.mem_cons.1 hc with e | e
      · subst e
        refine ⟨[], c, l, rfl, hk, ?_⟩
        intro c' hc' x
        exact hl ⟨c', hc', x⟩
      · exact absurd ⟨c, e, hk⟩ hl

theorem mapOfRegex_eq (regex : Regex) :
    mapOfRegex regex = putNamedCaptures IoMap_new (reportedCaptures regex) := by
  unfold mapOfRegex reportedCaptures
  cases Regex_namedCaptures regex <;> rfl

/-- C9: the map `nameToIndexMap` first returns has as its keys exactly the
names of the entries the matcher reports, each once, and gives for each name
the index of the last entry that carries it; for a name no entry carries it
gives nothing, and with no entries it is the empty map.  The map is stored in
the handle. -/
theorem nameToIndexMap_last_entry_wins (compile : Compiler) (s : IoState) (h : Nat)
    (caps : List NamedCapture)
    (hfirst : (s.objects h).nameToIndexMap = none)
    (hcaps : reportedCaptures (IoRegex_rawRegex compile s h).2 = caps) :
    (∀ name, name ∈ IoMap_keys (IoRegex_nameToIndexMap compile s h).2 ↔
      ∃ c ∈ caps, c.name = name) ∧
    (IoMap_keys (IoRegex_nameToIndexMap compile s h).2).Nodup ∧
    (∀ pre c post, caps = pre ++ c :: post → (∀ c' ∈ post, c'.name ≠ c.name) →
      IoMap_rawAt (IoRegex_nameToIndexMap compile s h).2 c.name = some c.index) ∧
    (∀ name, (∀ c ∈ caps, c.name ≠ name) →
      IoMap_rawAt (IoRegex_nameToIndexMap compile s h).2 name = none) ∧
    (caps = [] → (IoRegex_nameToIndexMap compile s h).2 = IoMap_new) ∧
    ((IoRegex_nameToIndexMap compile s h).1.objects h).nameToIndexMap
      = some (IoRegex_nameToIndexMap compile s h).2 := by
  have hmap : (IoRegex_nameToIndexMap compile s h).2 = putNamedCaptures IoMap_new caps := by
    rw [nameToIndexMap_result compile s h hfirst, mapOfRegex_eq, hcaps]
  refine ⟨?_, ?_, ?_, ?_, ?_, ?_⟩
  · intro name
    rw [hmap, mem_keys_putNamedCaptures]
    simp [IoMap_keys, IoMap_new]
  · rw [hmap]
    exact nodup_keys_putNamedCaptures caps IoMap_new (by simp [IoMap_keys, IoMap_new])
  · intro pre c post e hpost
    rw [hmap, e]
    exact rawAt_putNamedCaptures_last IoMap_new pre post c hpost
  · intro name hname
    rw [hmap, rawAt_putNamedCaptures_of_absent caps IoMap_new name hname]
    rfl
  · intro e
    rw [hmap, e]
    rfl
  · rw [nameToIndexMap_objects compile s h h hfirst, if_pos rfl,
      nameToIndexMap_result compile s h hfirst]

theorem nameToIndexMap_last_entry_wins_witness :
    (stateNamed.1.objects 1).nameToIndexMap = none ∧
    reportedCaptures (IoRegex_rawRegex exampleCompiler stateNamed.1 1).2
      = [⟨"first", 1⟩, ⟨"second", 2⟩] ∧
    (IoRegex_nameToIndexMap exampleCompiler stateNamed.1 1).2 = [("first", 1), ("second", 2)] ∧
    IoMap_rawAt (IoRegex_nameToIndexMap exampleCompiler stateNamed.1 1).2 "first" = some 1 ∧
    IoMap_rawAt (IoRegex_nameToIndexMap exampleCompiler stateNamed.1 1).2 "second" = some 2 :=
  ⟨by decide, by decide, by decide,
   (nameToIndexMap_last_entry_wins exampleCompiler stateNamed.1 1
      [⟨"first", 1⟩, ⟨"second", 2⟩] (by decide) (by decide)).2.2.1
      [] ⟨"first", 1⟩ [⟨"second", 2⟩] rfl (by decide),
   (nameToIndexMap_last_entry_wins exampleCompiler stateNamed.1 1
      [⟨"first", 1⟩, ⟨"second", 2⟩] (by decide) (by decide)).2.2.1
      [⟨"first", 1⟩] ⟨"second", 2⟩ [] rfl (by decide)⟩

/-- C8: for every list of named captures the compiled matcher reports, in
the order the spec's compiler records them, the map `nameToIndexMap` first
returns gives for every name of the list, and so for every name that occurs in
it more than once, the highest index among the entries that carry the name. -/
theorem nameToIndexMap_highest_when_ordered (compile : Compiler) (s : IoState) (h : Nat)
    (caps : List NamedCapture)
    (hfirst : (s.objects h).nameToIndexMap = none)
    (hcaps : reportedCaptures (IoRegex_rawRegex compile s h).2 = caps)
    (hord : IndexOrdered caps) :
    ∀ c ∈ caps, ∃ top ∈ caps, top.name = c.name ∧
      IoMap_rawAt (IoRegex_nameToIndexMap compile s h).2 c.name = some top.index ∧
      ∀ c' ∈ caps, c'.name = c.name → c'.index ≤ top.index := by
  have hmap : (IoRegex_nameToIndexMap compile s h).2 = putNamedCaptures IoMap_new caps := by
    rw [nameToIndexMap_result compile s h hfirst, mapOfRegex_eq, hcaps]
  intro c hc
  obtain ⟨pre, top, post, e, htop, hpost⟩ := exists_last_occurrence caps c.name ⟨c, hc, rfl⟩
  refine ⟨top, ?_, htop, ?_, ?_⟩
  · rw [e]
    simp
  · rw [hmap, e, ← htop]
    exact rawAt_putNamedCaptures_last IoMap_new pre post top (by rw [htop]; exact hpost)
  · intro c' hc' hname
    rw [e] at hc'
    rcases List.mem_append.1 hc' with hp | hp
    · unfold IndexOrdered at hord
      rw [e, List.pairwise_append] at hord
      exact hord.2.2 c' hp top (List.mem_cons_self _ _) (by rw [hname, htop])
    · rcases List.mem_cons.1 hp with hq | hq
      · rw [hq]
      · exact absurd hname (hpost c' hq)

theorem nameToIndexMap_highest_when_ordered_witness :
    (stateRepeated.1.objects 1).nameToIndexMap = none ∧
    reportedCaptures (IoRegex_rawRegex orderedCompiler stateRepeated.1 1).2
      = [⟨"a", 1⟩, ⟨"b", 2⟩, ⟨"a", 3⟩] ∧
    IndexOrdered [⟨"a", 1⟩, ⟨"b", 2⟩, ⟨"a", 3⟩] ∧
    IoMap_rawAt (IoRegex_nameToIndexMap orderedCompiler stateRepeated.1 1).2 "a" = some 3 ∧
    ∃ top ∈ [(⟨"a", 1⟩ : NamedCapture), ⟨"b", 2⟩, ⟨"a", 3⟩], top.name = "a" ∧
      IoMap_rawAt (IoRegex_nameToIndexMap orderedCompiler stateRepeated.1 1).2 "a"
        = some top.index ∧
      ∀ c' ∈ [(⟨"a", 1⟩ : NamedCapture), ⟨"b", 2⟩, ⟨"a", 3⟩],
        c'.name = "a" → c'.index ≤ top.index :=
  ⟨by decide, by decide, by decide, by decide,
   nameToIndexMap_highest_when_ordered orderedCompiler stateRepeated.1 1
     [⟨"a", 1⟩, ⟨"b", 2⟩, ⟨"a", 3⟩] (by decide) (by decide) (by decide)
     ⟨"a", 1⟩ (by decide)⟩

/-! ## Compile errors -/

/-- C7, as stated, fails: on a handle whose pattern fails to compile, the first
`captureCount` returns the number 0 and the first `nameToIndexMap` returns the
empty map; neither reports the error the compiler recorded. -/
theorem forcing_on_failed_pattern_returns_value :
    (stateBad.1.objects 1).pattern = "(" ∧
    (stateBad.1.objects 1).regex = none ∧
    (exampleCompiler (stateBad.1.objects 1).pattern (stateBad.1.objects 1).options).error
      = some "missing )" ∧
    (perform exampleCompiler stateBad.1 (.captureCount 1)).2 = .number 0 ∧
    (perform exampleCompiler stateBad.1 (.nameToIndexMap 1)).2 = .map [] := by
  decide

/-- C7, amended: construction does not call the compiler; on a handle without
a matcher the first `captureCount` calls the compiler, stores what it returns
and returns that object's capture count, and the first `nameToIndexMap` stores
it and returns the map built from that object's named captures, whether or not
the object records a compile error. -/
theorem forcing_returns_compiler_result (compile : Compiler) (s : IoState) (h : Nat)
    (hnone : (s.objects h).regex = none) :
    (∀ self p, (IoRegex_with s self p).1.compileLog = s.compileLog) ∧
    (IoRegex_captureCount compile s h).2
      = (compile (s.objects h).pattern (s.objects h).options).captureCount ∧
    ((IoRegex_captureCount compile s h).1.objects h).regex
      = some (compile (s.objects h).pattern (s.objects h).options) ∧
    ((s.objects h).nameToIndexMap = none →
      (IoRegex_nameToIndexMap compile s h).2
        = mapOfRegex (compile (s.objects h).pattern (s.objects h).options) ∧
      ((IoRegex_nameToIndexMap compile s h).1.objects h).regex
        = some (compile (s.objects h).pattern (s.objects h).options)) := by
  have hres : (IoRegex_rawRegex compile s h).2
      = compile (s.objects h).pattern (s.objects h).options := by
    rw [rawRegex_result, hnone]
  refine ⟨fun _ _ => rfl, ?_, ?_, ?_⟩
  · show (IoRegex_rawRegex compile s h).2.captureCount = _
    rw [hres]
  · show ((IoRegex_rawRegex compile s h).1.objects h).regex = _
    rw [rawRegex_objects, if_pos rfl, hres]
  · intro hm
    constructor
    · rw [nameToIndexMap_result compile s h hm, hres]
    · rw [nameToIndexMap_objects compile s h h hm, if_pos rfl, hres]

theorem forcing_returns_compiler_result_witness :
    (stateBad.1.objects 1).regex = none ∧
    (IoRegex_captureCount exampleCompiler stateBad.1 1).2
      = (exampleCompiler "(" 0).captureCount ∧
    ((IoRegex_captureCount exampleCompiler stateBad.1 1).1.objects 1).regex
      = some (exampleCompiler "(" 0) :=
  ⟨by decide,
   (forcing_returns_compiler_result exampleCompiler stateBad.1 1 (by decide)).2.1,
   (forcing_returns_compiler_result exampleCompiler stateBad.1 1 (by decide)).2.2.1⟩

end Io
